import Mathlib

/-!
Verification of the constrained proximal-gradient optimizer of
`scripts/sigpy_gradient_descent.py` and of the stacked reconstruction of
`scripts/sigpy/sigpy_stack_of_stars.py`.

The repository consists of two demonstration scripts built on top of the
`sigpy` optimization library.  The scripts' own code (`MyL2Gradient` and the
driver loops) is embedded directly from the source.  The library pieces the
scripts call (`sigpy.alg.GradientMethod`, `sigpy.prox.BoxConstraint`,
`sigpy.app.LinearLeastSquares`) are not part of the repository's source tree;
they are modelled from the specification's description of the component
(section 4.1 "Constrained Proximal Gradient Optimizer" and section 6).

Vectors are real-valued arrays in the scripts; they are embedded as functions
`Fin n → ℚ`, with the Euclidean norm compared through its square so that all
definitions stay executable over the rationals.
-/

namespace MR

/-- A real-valued numeric array of fixed shape (the solution vector of the
spec's data model), flattened to a function on coordinates. -/
abbrev Vec (n : ℕ) := Fin n → ℚ

/-- Squared Euclidean norm `‖v‖²` of a vector. -/
def sqnorm {k : ℕ} (v : Fin k → ℚ) : ℚ := Matrix.dotProduct v v

/-- Modelled from the spec: `sigpy.prox.BoxConstraint ishape lower upper` —
the proximal operator of a box constraint is the elementwise projection
`clip(x, lower, upper) = min (max x lower) upper` (spec 4.1, step 3). -/
def boxProx {n : ℕ} (lower upper : ℚ) (x : Vec n) : Vec n :=
  fun i => min (max (x i) lower) upper

/-- Modelled from the spec: the configuration of `sigpy.alg.GradientMethod`
as instantiated by the script with `accelerate=False`: a gradient-evaluation
function `gradf`, a step size `alpha`, box bounds `lower ≤ upper` (the prox
`proxg`), an iteration bound `max_iter` and a convergence threshold `tol`
(spec 4.1, Inputs).  All fields are immutable during a run. -/
structure GradientMethod (n : ℕ) where
  gradf : Vec n → Vec n
  alpha : ℚ
  lower : ℚ
  upper : ℚ
  max_iter : ℕ
  tol : ℚ

/-- The mutable state of the optimizer: the current iterate `x`, the
iteration counter `iter`, and the squared norm of the last successive-iterate
change (`none` before the first update), which the stopping rule of spec 4.1
step 5 reads. -/
structure AlgState (n : ℕ) where
  x : Vec n
  iter : ℕ
  residSq : Option ℚ

/-- Initial optimizer state: counter 0, iterate `x0`, no residual yet. -/
def init {n : ℕ} (x0 : Vec n) : AlgState n := ⟨x0, 0, none⟩

/-- Modelled from the spec (4.1 Algorithm, steps 1–3): evaluate
`g = gradf x`, take the unconstrained step `x - alpha * g`, then project onto
the box. -/
def gradStep {n : ℕ} (gm : GradientMethod n) (x : Vec n) : Vec n :=
  boxProx gm.lower gm.upper (fun i => x i - gm.alpha * gm.gradf x i)

/-- Modelled from the spec: one `alg.update()` call — replace the iterate by
the projected gradient step, increment the counter (step 4), and record the
squared norm of the successive-iterate change for the stopping rule. -/
def update {n : ℕ} (gm : GradientMethod n) (s : AlgState n) : AlgState n :=
  { x := gradStep gm s.x
    iter := s.iter + 1
    residSq := some (sqnorm (fun i => gradStep gm s.x i - s.x i)) }

/-- Modelled from the spec (4.1 step 5): the tolerance test
`‖x_new - x‖ < tol` is active only when `tol > 0`, and only once a residual
exists; norms are compared through their squares to stay rational. -/
def tolMet {n : ℕ} (gm : GradientMethod n) (s : AlgState n) : Bool :=
  match s.residSq with
  | none => false
  | some r => decide (0 < gm.tol) && decide (r < gm.tol ^ 2)

/-- Modelled from the spec: `alg.done()` — `Done` when the counter reached
`max_iter` or the tolerance is met (spec 4.1 step 5 and the state machine). -/
def done {n : ℕ} (gm : GradientMethod n) (s : AlgState n) : Bool :=
  decide (gm.max_iter ≤ s.iter) || tolMet gm s

/-- Fuel-indexed unfolding of the driver loop
`while not alg.done(): alg.update()`.  The fuel is bookkeeping only:
`runFrom` supplies `max_iter - iter` and `runFrom_eq` below shows the
combination satisfies exactly the loop's defining equation. -/
def loop {n : ℕ} (gm : GradientMethod n) : ℕ → AlgState n → AlgState n
  | 0, s => s
  | Nat.succ fuel, s => if done gm s then s else loop gm fuel (update gm s)

/-- The driver loop of the script, run from an arbitrary state. -/
def runFrom {n : ℕ} (gm : GradientMethod n) (s : AlgState n) : AlgState n :=
  loop gm (gm.max_iter - s.iter) s

/-- The whole optimizer run of the script: loop from the initial state. -/
def run {n : ℕ} (gm : GradientMethod n) (x0 : Vec n) : AlgState n :=
  runFrom gm (init x0)

/-- The class `MyL2Gradient` of `scripts/sigpy_gradient_descent.py`
(lines 9–16): a record capturing the operator `A` and data `y` at construction.
The script's operator is `sigpy.linop.MatMul` with a real matrix, so the
operator is embedded as a matrix, `apply` as `mulVec`, and the adjoint `A.H`
as the transpose (the conjugate transpose of a real matrix). -/
structure MyL2Gradient (m n : ℕ) where
  A : Matrix (Fin m) (Fin n) ℚ
  y : Fin m → ℚ

/-- The method `MyL2Gradient.__call__`, which computes
`self._A.H.apply(self._A.apply(r) - self._y)` (source line 16). -/
def MyL2Gradient.call {m n : ℕ} (g : MyL2Gradient m n) (r : Vec n) : Vec n :=
  Matrix.mulVec g.A.transpose (Matrix.mulVec g.A r - g.y)

/-- The smooth loss `0.5 * ‖A x - y‖²` of spec 4.1; stated from the spec's
words, to be compared with what `MyL2Gradient.call` computes. -/
def l2loss {m n : ℕ} (g : MyL2Gradient m n) (x : Vec n) : ℚ :=
  (1 / 2) * sqnorm (Matrix.mulVec g.A x - g.y)

/-- The complete optimizer state: the immutable configuration together with
the mutable algorithm state, used to express the frame of one update. -/
structure FullState (n : ℕ) where
  gm : GradientMethod n
  st : AlgState n

/-- One `alg.update()` on the complete state: the configuration is carried
through and only the algorithm state is recomputed. -/
def fullUpdate {n : ℕ} (fs : FullState n) : FullState n :=
  ⟨fs.gm, update fs.gm fs.st⟩

/-- The norm `‖v‖₁`, the absolute-value sum penalized by `sigpy.prox.L1Reg`. -/
def l1norm {k : ℕ} (v : Fin k → ℚ) : ℚ := ∑ i, |v i|

/-- Modelled from the spec (section 6, LeastSquaresSolver contract): the
objective minimized by `sigpy.app.LinearLeastSquares(op, data, G=G,
proxg=L1Reg(beta))`, namely `0.5‖op x - data‖² + beta * ‖G x‖₁`.  This is the
per-gate problem of `sigpy_stack_of_stars.py` lines 133–138 (`ind_recons2`),
with `op` the extracted 3D forward operator and `G` the 3D gradient operator,
both embedded as matrices acting on flattened images. -/
def lsqObjective {m n p : ℕ} (A : Matrix (Fin m) (Fin n) ℚ) (y : Fin m → ℚ)
    (G : Matrix (Fin p) (Fin n) ℚ) (beta : ℚ) (x : Fin n → ℚ) : ℚ :=
  (1 / 2) * sqnorm (Matrix.mulVec A x - y) + beta * l1norm (Matrix.mulVec G x)

/-- The block-diagonal (`sigpy.linop.Diag`) application of one and the same
per-gate operator to every gate of a stacked array — the script builds
`fwd_op_4d` and `stacked_G` from identical copies of the 3D operator
(lines 92–93 and 108–109). -/
def diagApply {k m n : ℕ} (A : Matrix (Fin m) (Fin n) ℚ)
    (X : Fin k → Fin n → ℚ) : Fin k → Fin m → ℚ :=
  fun i => Matrix.mulVec A (X i)

/-- Squared Euclidean norm of a stacked (gate-indexed) array. -/
def sqnorm4 {k m : ℕ} (V : Fin k → Fin m → ℚ) : ℚ := ∑ i, sqnorm (V i)

/-- The norm `‖·‖₁` of a stacked (gate-indexed) array. -/
def l1norm4 {k p : ℕ} (V : Fin k → Fin p → ℚ) : ℚ := ∑ i, l1norm (V i)

/-- Modelled from the spec (section 6): the objective of reconstruction (1)
of `sigpy_stack_of_stars.py` lines 116–123, posed with the stacked 4D forward
operator and the stacked 4D gradient operator over all gates at once. -/
def stackedObjective {k m n p : ℕ} (A : Matrix (Fin m) (Fin n) ℚ)
    (G : Matrix (Fin p) (Fin n) ℚ) (beta : ℚ) (Y : Fin k → Fin m → ℚ)
    (X : Fin k → Fin n → ℚ) : ℚ :=
  (1 / 2) * sqnorm4 (fun i => diagApply A X i - Y i) + beta * l1norm4 (diagApply G X)

/-- The point `x` is a global minimizer of `f`: the contract of the library's
least-squares solver is to return such a point. -/
def IsMinimizer {α : Type*} (f : α → ℚ) (x : α) : Prop := ∀ z, f x ≤ f z

/-! Concrete instances used by the witnesses and counterexamples. -/

/-- A configuration with the script's bounds `[0.05, 0.8]` and `tol=0`. -/
def gmBox : GradientMethod 2 :=
  { gradf := fun x => x
    alpha := 1
    lower := 1 / 20
    upper := 4 / 5
    max_iter := 1000
    tol := 0 }

/-- An initial point entirely outside the bounds, as in the spec's boundary
scenario. -/
def xOutside : Vec 2 := fun _ => -10

/-- A configuration with zero gradient, unit step, bounds `[0, 1]`, `tol=0`. -/
def gmId : GradientMethod 1 :=
  { gradf := fun _ => fun _ => 0
    alpha := 1
    lower := 0
    upper := 1
    max_iter := 3
    tol := 0 }

/-- The constant-`1/2` vector, a fixed point of `gmId`'s update. -/
def xHalf : Vec 1 := fun _ => 1 / 2

/-- The configuration `gmId` with the iteration budget set to zero. -/
def gmZeroIter : GradientMethod 1 := { gmId with max_iter := 0 }

/-- A configuration with a positive tolerance that is met immediately. -/
def gmEarlyStop : GradientMethod 1 :=
  { gradf := fun _ => fun _ => 0
    alpha := 0
    lower := 0
    upper := 1
    max_iter := 2
    tol := 1 }

/-- A zero-step-size configuration. -/
def gmZeroStep : GradientMethod 2 :=
  { gradf := fun _ => fun _ => 0
    alpha := 0
    lower := 0
    upper := 1
    max_iter := 5
    tol := 0 }

/-- The configuration `gmZeroStep` with a completely different gradient
function. -/
def gmZeroStep' : GradientMethod 2 :=
  { gmZeroStep with gradf := fun x => fun i => 100 * x i + 7 }

/-- A one-gate, one-pixel forward operator for the stacked-reconstruction
witness. -/
def A1 : Matrix (Fin 1) (Fin 1) ℚ := fun _ => fun _ => 1

/-- A zero regularization operator for the stacked-reconstruction witness. -/
def G1 : Matrix (Fin 1) (Fin 1) ℚ := fun _ => fun _ => 0

/-- Zero data for the stacked-reconstruction witness. -/
def Y1 : Fin 1 → Fin 1 → ℚ := fun _ => fun _ => 0

/-- The zero image stack, minimizer of the witness problem. -/
def X1 : Fin 1 → Fin 1 → ℚ := fun _ => fun _ => 0

theorem loop_iter_ge {n : ℕ} (gm : GradientMethod n) :
    ∀ fuel (s : AlgState n), s.iter ≤ (loop gm fuel s).iter := by
  intro fuel
  induction fuel with
  | zero => intro s; exact le_refl _
  | succ fuel ih =>
    intro s
    rw [loop]
    split
    · exact le_refl _
    · exact le_trans (Nat.le_succ _) (ih (update gm s))

theorem runFrom_eq {n : ℕ} (gm : GradientMethod n) (s : AlgState n) :
    runFrom gm s = if done gm s then s else runFrom gm (update gm s) := by
  unfold runFrom
  by_cases hd : done gm s
  · simp only [hd, if_true]
    cases hfuel : gm.max_iter - s.iter with
    | zero => rfl
    | succ fuel => rw [loop, hd]; simp
  · simp only [hd, if_false]
    have hlt : s.iter < gm.max_iter := by
      by_contra hge
      have : gm.max_iter ≤ s.iter := Nat.le_of_not_lt hge
      exact hd (by simp [done, this])
    have hfuel : gm.max_iter - s.iter = (gm.max_iter - (s.iter + 1)) + 1 := by
      omega
    rw [hfuel, loop, if_neg hd]
    rfl

/-- Claim C1: one `alg.update()` call replaces the iterate by exactly the
clipped gradient step: with `g = gradient_fn(x)`, the unconstrained step is
`x_unproj = x - step_size * g` and the new iterate is
`clip(x_unproj, lower, upper)` elementwise. -/
theorem update_is_clipped_gradient_step {n : ℕ} (gm : GradientMethod n)
    (s : AlgState n) :
    (update gm s).x =
      boxProx gm.lower gm.upper (fun i => s.x i - gm.alpha * gm.gradf s.x i) ∧
    (update gm s).x =
      fun i => min (max (s.x i - gm.alpha * gm.gradf s.x i) gm.lower) gm.upper :=
  ⟨rfl, rfl⟩

theorem loop_iter_le {n : ℕ} (gm : GradientMethod n) :
    ∀ fuel (s : AlgState n), (loop gm fuel s).iter ≤ s.iter + fuel := by
  intro fuel
  induction fuel with
  | zero => intro s; exact le_refl _
  | succ fuel ih =>
    intro s
    rw [loop]
    split
    · exact Nat.le_add_right _ _
    · have h1 := ih (update gm s)
      have h2 : (update gm s).iter = s.iter + 1 := rfl
      omega

theorem tolMet_of_tol_zero {n : ℕ} (gm : GradientMethod n) (s : AlgState n)
    (h : gm.tol = 0) : tolMet gm s = false := by
  unfold tolMet
  cases s.residSq with
  | none => rfl
  | some r => simp [h]

theorem loop_iter_of_tol_zero {n : ℕ} (gm : GradientMethod n) (h : gm.tol = 0) :
    ∀ fuel (s : AlgState n), s.iter + fuel ≤ gm.max_iter →
      (loop gm fuel s).iter = s.iter + fuel := by
  intro fuel
  induction fuel with
  | zero => intro s _; rfl
  | succ fuel ih =>
    intro s hs
    rw [loop]
    have hlt : s.iter < gm.max_iter := by omega
    have hdone : done gm s = false := by
      rw [done, tolMet_of_tol_zero gm s h]
      simp [Nat.not_le.mpr hlt]
    rw [hdone]
    simp only [Bool.false_eq_true, if_false]
    have h2 : (update gm s).iter = s.iter + 1 := rfl
    have := ih (update gm s) (by omega)
    omega

/-- Claim C2: after each update call, every coordinate of the solution vector
lies within `[lower, upper]` (given the spec's precondition `lower ≤ upper`);
in particular this holds after one update from an initial point entirely
outside the bounds, which the witness demonstrates with `x0 = -10` and bounds
`[0.05, 0.8]`. -/
theorem update_x_mem_box {n : ℕ} (gm : GradientMethod n) (s : AlgState n)
    (h : gm.lower ≤ gm.upper) (i : Fin n) :
    gm.lower ≤ (update gm s).x i ∧ (update gm s).x i ≤ gm.upper := by
  refine ⟨?_, ?_⟩
  · exact le_min (le_max_right _ _) h
  · exact min_le_right _ _

theorem update_x_mem_box_witness :
    (gmBox.lower ≤ gmBox.upper) ∧
    (gmBox.lower ≤ (update gmBox (init xOutside)).x 0 ∧
      (update gmBox (init xOutside)).x 0 ≤ gmBox.upper) ∧
    (gmBox.lower ≤ (update gmBox (init xOutside)).x 1 ∧
      (update gmBox (init xOutside)).x 1 ≤ gmBox.upper) :=
  ⟨by norm_num [gmBox], update_x_mem_box gmBox (init xOutside) (by norm_num [gmBox]) 0,
    update_x_mem_box gmBox (init xOutside) (by norm_num [gmBox]) 1⟩

/-- Claim C6: if the iterate already satisfies the fixed-point equation
`x = clip(x - step_size * gradient_fn(x), lower, upper)`, one update call
leaves the solution vector unchanged. -/
theorem fixed_point_update {n : ℕ} (gm : GradientMethod n) (s : AlgState n)
    (h : s.x = gradStep gm s.x) : (update gm s).x = s.x := by
  have : (update gm s).x = gradStep gm s.x := rfl
  rw [this, ← h]

theorem fixed_point_update_witness :
    (init xHalf).x = gradStep gmId (init xHalf).x ∧
    (update gmId (init xHalf)).x = (init xHalf).x := by
  have hfix : (init xHalf).x = gradStep gmId (init xHalf).x := by
    funext i
    norm_num [init, xHalf, gradStep, gmId, boxProx, max_def, min_def]
  exact ⟨hfix, fixed_point_update gmId (init xHalf) hfix⟩

/-- Claim C7: with `max_iter = 0` the optimizer performs no updates: the run
returns the initial state, so the final solution vector is `x0` unchanged and
the counter is still 0. -/
theorem zero_max_iter_run {n : ℕ} (gm : GradientMethod n) (x0 : Vec n)
    (h : gm.max_iter = 0) :
    run gm x0 = init x0 ∧ (run gm x0).x = x0 ∧ (run gm x0).iter = 0 := by
  have hrun : run gm x0 = init x0 := by
    unfold run runFrom
    rw [h]
    rfl
  exact ⟨hrun, by rw [hrun]; rfl, by rw [hrun]; rfl⟩

theorem zero_max_iter_run_witness :
    run gmZeroIter xHalf = init xHalf ∧
    (run gmZeroIter xHalf).x = xHalf ∧ (run gmZeroIter xHalf).iter = 0 :=
  zero_max_iter_run gmZeroIter xHalf rfl

theorem gradStep_gmEarlyStop : gradStep gmEarlyStop xHalf = xHalf := by
  funext i
  norm_num [gradStep, gmEarlyStop, boxProx, xHalf, max_def, min_def]

theorem update_gmEarlyStop :
    update gmEarlyStop (init xHalf) = { x := xHalf, iter := 1, residSq := some 0 } := by
  unfold update init
  simp only [AlgState.mk.injEq]
  refine ⟨gradStep_gmEarlyStop, by trivial, ?_⟩
  rw [show (gradStep gmEarlyStop xHalf : Vec 1) = xHalf from gradStep_gmEarlyStop]
  simp [sqnorm, Matrix.dotProduct, sub_self]

theorem runFrom_gmEarlyStop_iter : (runFrom gmEarlyStop (init xHalf)).iter = 1 := by
  have h0 : done gmEarlyStop (init xHalf) = false := by
    rw [done]
    norm_num [tolMet, init, gmEarlyStop]
  have h1 : done gmEarlyStop { x := xHalf, iter := 1, residSq := some 0 } = true := by
    rw [done]
    norm_num [tolMet, gmEarlyStop]
  rw [runFrom_eq, h0]
  simp only [Bool.false_eq_true, if_false]
  rw [update_gmEarlyStop, runFrom_eq, h1]
  rfl

/-- Claim C4, counterexample: with a positive tolerance that is met after the
first update (`tol = 1`, zero step size, `max_iter = 2`, start `1/2` inside
the bounds), the driver loop terminates with counter 1, not `max_iter = 2`:
the claim's "terminal value equals the configured maximum" fails as stated
for configurations with `tol > 0`. -/
theorem iter_terminal_counterexample :
    ¬ ((runFrom gmEarlyStop (init xHalf)).iter = gmEarlyStop.max_iter) := by
  rw [runFrom_gmEarlyStop_iter]
  norm_num [gmEarlyStop]

/-- Claim C4, amended: the iteration counter starts at 0 and increases by
exactly 1 per update call; within the driver loop it never exceeds
`max_iter`, and the terminal value equals the configured maximum whenever
`tol = 0` (the demonstrated configuration) — with `tol > 0` the loop may
stop earlier. -/
theorem iter_counter_behavior {n : ℕ} (gm : GradientMethod n) (s : AlgState n)
    (x0 : Vec n) (hle : s.iter ≤ gm.max_iter) :
    (init x0).iter = 0 ∧
    (update gm s).iter = s.iter + 1 ∧
    (runFrom gm s).iter ≤ gm.max_iter ∧
    (gm.tol = 0 → (runFrom gm s).iter = gm.max_iter) := by
  refine ⟨rfl, rfl, ?_, ?_⟩
  · have := loop_iter_le gm (gm.max_iter - s.iter) s
    unfold runFrom
    omega
  · intro h
    have := loop_iter_of_tol_zero gm h (gm.max_iter - s.iter) s (by omega)
    unfold runFrom
    omega

theorem iter_counter_behavior_witness :
    (init xOutside).iter = 0 ∧
    (update gmBox (init xOutside)).iter = (init xOutside).iter + 1 ∧
    (runFrom gmBox (init xOutside)).iter ≤ gmBox.max_iter ∧
    (runFrom gmBox (init xOutside)).iter = gmBox.max_iter := by
  obtain ⟨h1, h2, h3, h4⟩ :=
    iter_counter_behavior gmBox (init xOutside) xOutside (Nat.zero_le _)
  exact ⟨h1, h2, h3, h4 rfl⟩

/-- Claim C5: with `tol = 0` the optimizer is never `Done` before the counter
reaches `max_iter` — it runs unconditionally for exactly `max_iter` update
steps; with `tol > 0` it stops as soon as the successive-iterate change drops
below `tol` (the Euclidean norm is compared through its square). -/
theorem stopping_rule {n : ℕ} (gm : GradientMethod n) (s : AlgState n) :
    (gm.tol = 0 → (done gm s = true ↔ gm.max_iter ≤ s.iter)) ∧
    (gm.tol = 0 → s.iter ≤ gm.max_iter → (runFrom gm s).iter = gm.max_iter) ∧
    (0 < gm.tol → sqnorm (fun i => (update gm s).x i - s.x i) < gm.tol ^ 2 →
      done gm (update gm s) = true) := by
  refine ⟨?_, ?_, ?_⟩
  · intro h
    rw [done, tolMet_of_tol_zero gm s h]
    simp
  · intro h hle
    have := loop_iter_of_tol_zero gm h (gm.max_iter - s.iter) s (by omega)
    unfold runFrom
    omega
  · intro htol hres
    have hres' : sqnorm (fun i => gradStep gm s.x i - s.x i) < gm.tol ^ 2 := hres
    rw [done]
    have htm : tolMet gm (update gm s) = true := by
      rw [update]
      simp [tolMet, htol, hres']
    rw [htm]
    simp

theorem stopping_rule_witness :
    (done gmBox (init xOutside) = true ↔ gmBox.max_iter ≤ (init xOutside).iter) ∧
    (runFrom gmBox (init xOutside)).iter = gmBox.max_iter ∧
    done gmEarlyStop (update gmEarlyStop (init xHalf)) = true := by
  have hres : sqnorm
      (fun i => (update gmEarlyStop (init xHalf)).x i - (init xHalf).x i) <
      gmEarlyStop.tol ^ 2 := by
    have hfun : (fun i => (update gmEarlyStop (init xHalf)).x i - (init xHalf).x i)
        = fun _ : Fin 1 => (0 : ℚ) := by
      funext i
      show gradStep gmEarlyStop xHalf i - xHalf i = 0
      rw [gradStep_gmEarlyStop]
      ring
    rw [hfun]
    norm_num [sqnorm, Matrix.dotProduct, gmEarlyStop]
  exact ⟨(stopping_rule gmBox (init xOutside)).1 rfl,
    (stopping_rule gmBox (init xOutside)).2.1 rfl (Nat.zero_le _),
    (stopping_rule gmEarlyStop (init xHalf)).2.2 (by norm_num [gmEarlyStop]) hres⟩

theorem boxProx_idem {n : ℕ} (lower upper : ℚ) (h : lower ≤ upper) (x : Vec n) :
    boxProx lower upper (boxProx lower upper x) = boxProx lower upper x := by
  funext i
  simp only [boxProx]
  have h1 : lower ≤ min (max (x i) lower) upper := le_min (le_max_right _ _) h
  have h2 : min (max (x i) lower) upper ≤ upper := min_le_right _ _
  rw [max_eq_left h1, min_eq_left h2]

theorem update_x_zero_alpha {n : ℕ} (gm : GradientMethod n) (ha : gm.alpha = 0)
    (s : AlgState n) : (update gm s).x = boxProx gm.lower gm.upper s.x := by
  show gradStep gm s.x = boxProx gm.lower gm.upper s.x
  unfold gradStep
  rw [ha]
  simp only [zero_mul, sub_zero]

theorem iterate_update_zero_alpha {n : ℕ} (gm : GradientMethod n)
    (ha : gm.alpha = 0) (hb : gm.lower ≤ gm.upper) (x0 : Vec n) :
    ∀ j, ((update gm)^[j + 1] (init x0)).x = boxProx gm.lower gm.upper x0 := by
  intro j
  induction j with
  | zero => rw [Function.iterate_one]; exact update_x_zero_alpha gm ha (init x0)
  | succ j ih =>
    rw [Function.iterate_succ_apply', update_x_zero_alpha gm ha, ih]
    exact boxProx_idem _ _ hb x0

/-- Claim C8: with `step_size = 0`, after every `k ≥ 1` update calls the
iterate equals the same clipped initial point `clip(x0, lower, upper)`, and
the result is independent of the gradient function: a second configuration
agreeing on step size and bounds but with an arbitrary different
`gradient_fn` produces the identical iterate. -/
theorem zero_step_size_iterates {n : ℕ} (gm gm' : GradientMethod n)
    (x0 : Vec n) (k : ℕ) (hb : gm.lower ≤ gm.upper) (ha : gm.alpha = 0)
    (hk : 1 ≤ k) (ha' : gm'.alpha = gm.alpha) (hl : gm'.lower = gm.lower)
    (hu : gm'.upper = gm.upper) :
    ((update gm)^[k] (init x0)).x = boxProx gm.lower gm.upper x0 ∧
    ((update gm')^[k] (init x0)).x = ((update gm)^[k] (init x0)).x := by
  obtain ⟨j, rfl⟩ : ∃ j, k = j + 1 := ⟨k - 1, by omega⟩
  have h1 := iterate_update_zero_alpha gm ha hb x0 j
  have h2 := iterate_update_zero_alpha gm' (by rw [ha', ha])
    (by rw [hl, hu]; exact hb) x0 j
  refine ⟨h1, ?_⟩
  rw [h1, h2, hl, hu]

theorem zero_step_size_iterates_witness :
    ((update gmZeroStep)^[2] (init xOutside)).x =
      boxProx gmZeroStep.lower gmZeroStep.upper xOutside ∧
    ((update gmZeroStep')^[2] (init xOutside)).x =
      ((update gmZeroStep)^[2] (init xOutside)).x :=
  zero_step_size_iterates gmZeroStep gmZeroStep' xOutside 2
    (by norm_num [gmZeroStep]) rfl (by norm_num) rfl rfl rfl

/-- Claim C9, counterexample: one update call also writes the stored
successive-change residual that the stopping rule reads: starting from a
state whose residual slot is empty, the slot is filled after the update, so
the update mutates state other than the solution vector and the iteration
counter. -/
theorem update_mutation_counterexample :
    ¬ ((fullUpdate ⟨gmId, init xHalf⟩).st.residSq = (init xHalf).residSq) := by
  intro hcontra
  simp [fullUpdate, update, init] at hcontra

/-- Claim C9, amended: each update is deterministic and mutates only the
algorithm state: the configuration (gradient function, operator data, bounds,
step size, iteration bound, tolerance) is carried through unchanged, the new
iterate, counter and stored residual are functions of the configuration, the
current iterate and the counter alone, and two updates started from states
agreeing on those components produce identical full states — even when the
stored residuals of the two starting states differ. -/
theorem update_deterministic_frame {n : ℕ} (fs fs' : FullState n)
    (hgm : fs.gm = fs'.gm) (hx : fs.st.x = fs'.st.x)
    (hiter : fs.st.iter = fs'.st.iter) :
    (fullUpdate fs).gm = fs.gm ∧
    (fullUpdate fs).st.x = gradStep fs.gm fs.st.x ∧
    (fullUpdate fs).st.iter = fs.st.iter + 1 ∧
    (fullUpdate fs).st.residSq =
      some (sqnorm (fun i => gradStep fs.gm fs.st.x i - fs.st.x i)) ∧
    fullUpdate fs = fullUpdate fs' := by
  refine ⟨rfl, rfl, rfl, rfl, ?_⟩
  unfold fullUpdate update
  rw [hgm, hx, hiter]

theorem update_deterministic_frame_witness :
    (fullUpdate ⟨gmId, init xHalf⟩).gm = gmId ∧
    (fullUpdate ⟨gmId, init xHalf⟩).st.x = gradStep gmId xHalf ∧
    (fullUpdate ⟨gmId, init xHalf⟩).st.iter = 1 ∧
    (fullUpdate ⟨gmId, init xHalf⟩).st.residSq =
      some (sqnorm (fun i => gradStep gmId xHalf i - xHalf i)) ∧
    fullUpdate ⟨gmId, init xHalf⟩ =
      fullUpdate ⟨gmId, { x := xHalf, iter := 0, residSq := some 5 }⟩ :=
  update_deterministic_frame ⟨gmId, init xHalf⟩
    ⟨gmId, { x := xHalf, iter := 0, residSq := some 5 }⟩ rfl rfl rfl

theorem sqnorm_add {k : ℕ} (u v : Fin k → ℚ) :
    sqnorm (u + v) = sqnorm u + 2 * Matrix.dotProduct u v + sqnorm v := by
  unfold sqnorm
  rw [Matrix.dotProduct_add, Matrix.add_dotProduct, Matrix.add_dotProduct,
    Matrix.dotProduct_comm v u]
  ring

/-- Claim C3: for every `x`, `MyL2Gradient.__call__` returns
`Aᴴ(A(x) - y)` with the operator and data captured at construction, and this
is the gradient of the smooth loss `0.5 * ‖A(x) - y‖²` at `x`: along every
direction `d` the loss expands exactly as
`loss(x) + ⟪g(x), d⟫ + 0.5 * ‖A d‖²`, whose linear term is given by `g(x)`. -/
theorem myL2Gradient_call_is_gradient {m n : ℕ} (g : MyL2Gradient m n)
    (x d : Vec n) :
    g.call x = Matrix.mulVec g.A.transpose (Matrix.mulVec g.A x - g.y) ∧
    l2loss g (x + d) = l2loss g x + Matrix.dotProduct (g.call x) d +
      (1 / 2) * sqnorm (Matrix.mulVec g.A d) := by
  refine ⟨rfl, ?_⟩
  have hres : Matrix.mulVec g.A (x + d) - g.y
      = (Matrix.mulVec g.A x - g.y) + Matrix.mulVec g.A d := by
    rw [Matrix.mulVec_add, add_sub_right_comm]
  have hdot : Matrix.dotProduct (g.call x) d
      = Matrix.dotProduct (Matrix.mulVec g.A x - g.y) (Matrix.mulVec g.A d) := by
    show Matrix.dotProduct
      (Matrix.mulVec g.A.transpose (Matrix.mulVec g.A x - g.y)) d = _
    rw [Matrix.mulVec_transpose]
    exact (Matrix.dotProduct_mulVec _ _ _).symm
  unfold l2loss
  rw [hres, sqnorm_add, hdot]
  ring

theorem isMinimizer_sum_iff {k : ℕ} {V : Type*} (f : Fin k → V → ℚ)
    (X : Fin k → V) :
    IsMinimizer (fun Z : Fin k → V => ∑ i, f i (Z i)) X ↔
      ∀ i, IsMinimizer (f i) (X i) := by
  constructor
  · intro h i z
    have hupd := h (Function.update X i z)
    dsimp only at hupd
    have hg : ∀ j, f j (Function.update X i z j)
        = Function.update (fun j => f j (X j)) i (f i z) j := by
      intro j
      by_cases hj : j = i
      · subst hj; simp
      · simp [Function.update_noteq hj]
    rw [Finset.sum_congr rfl fun j _ => hg j] at hupd
    rw [Finset.sum_update_of_mem (Finset.mem_univ i)] at hupd
    rw [Finset.sum_eq_sum_diff_singleton_add (Finset.mem_univ i)
      (fun j => f j (X j))] at hupd
    linarith
  · intro h Z
    exact Finset.sum_le_sum fun i _ => h i (Z i)

theorem stackedObjective_eq_sum {k m n p : ℕ} (A : Matrix (Fin m) (Fin n) ℚ)
    (G : Matrix (Fin p) (Fin n) ℚ) (beta : ℚ) (Y : Fin k → Fin m → ℚ)
    (X : Fin k → Fin n → ℚ) :
    stackedObjective A G beta Y X = ∑ i, lsqObjective A (Y i) G beta (X i) := by
  simp only [stackedObjective, lsqObjective, sqnorm4, l1norm4, diagApply]
  rw [Finset.mul_sum, Finset.mul_sum, ← Finset.sum_add_distrib]

/-- Claim C10: the stacked reconstruction problem posed with the block-diagonal
4D operators separates gate by gate: a stacked solution is a minimizer of the
joint objective exactly when each gate component minimizes the corresponding
per-gate 3D objective, so when the per-gate problems are uniquely solvable,
the joint reconstruction agrees with the per-gate reconstructions at every
gate index (`ind_recons[i] = ind_recons2[i]`).  The library solver is
modelled by its contract of returning a global minimizer of its objective. -/
theorem stacked_recon_equiv {k m n p : ℕ} (A : Matrix (Fin m) (Fin n) ℚ)
    (G : Matrix (Fin p) (Fin n) ℚ) (beta : ℚ) (Y : Fin k → Fin m → ℚ)
    (X Z : Fin k → Fin n → ℚ)
    (hX : IsMinimizer (stackedObjective A G beta Y) X)
    (hZ : ∀ i, IsMinimizer (lsqObjective A (Y i) G beta) (Z i))
    (huniq : ∀ i w w', IsMinimizer (lsqObjective A (Y i) G beta) w →
      IsMinimizer (lsqObjective A (Y i) G beta) w' → w = w') :
    (∀ i, IsMinimizer (lsqObjective A (Y i) G beta) (X i)) ∧
    ∀ i, X i = Z i := by
  have hXsum : IsMinimizer
      (fun W : Fin k → Fin n → ℚ => ∑ i, lsqObjective A (Y i) G beta (W i)) X := by
    intro W
    dsimp only
    have e1 := stackedObjective_eq_sum A G beta Y X
    have e2 := stackedObjective_eq_sum A G beta Y W
    rw [← e1, ← e2]
    exact hX W
  have hgate := (isMinimizer_sum_iff (fun i => lsqObjective A (Y i) G beta) X).1 hXsum
  exact ⟨hgate, fun i => huniq i (X i) (Z i) (hgate i) (hZ i)⟩

theorem lsqObjective_A1 (i : Fin 1) (w : Fin 1 → ℚ) :
    lsqObjective A1 (Y1 i) G1 1 w = (1 / 2) * (w 0 * w 0) := by
  simp [lsqObjective, sqnorm, l1norm, Matrix.dotProduct, Matrix.mulVec, A1, G1,
    Y1, Fin.sum_univ_one]

theorem stackedObjective_A1 (W : Fin 1 → Fin 1 → ℚ) :
    stackedObjective A1 G1 1 Y1 W = (1 / 2) * (W 0 0 * W 0 0) := by
  rw [stackedObjective_eq_sum, Fin.sum_univ_one]
  exact lsqObjective_A1 0 (W 0)

theorem stacked_recon_equiv_witness :
    (∀ i, IsMinimizer (lsqObjective A1 (Y1 i) G1 1) (X1 i)) ∧
    ∀ i, X1 i = X1 i := by
  have hX1val : ∀ i : Fin 1, lsqObjective A1 (Y1 i) G1 1 (X1 i) = 0 := by
    intro i
    rw [lsqObjective_A1]
    simp [X1]
  have hZ : ∀ i, IsMinimizer (lsqObjective A1 (Y1 i) G1 1) (X1 i) := by
    intro i w
    rw [hX1val i, lsqObjective_A1 i w]
    have := mul_self_nonneg (w 0)
    linarith
  have hX : IsMinimizer (stackedObjective A1 G1 1 Y1) X1 := by
    intro W
    rw [stackedObjective_A1, stackedObjective_A1]
    have h0 : X1 0 0 = 0 := rfl
    rw [h0]
    have := mul_self_nonneg (W 0 0)
    linarith
  have huniq : ∀ (i : Fin 1) w w', IsMinimizer (lsqObjective A1 (Y1 i) G1 1) w →
      IsMinimizer (lsqObjective A1 (Y1 i) G1 1) w' → w = w' := by
    intro i w w' hw hw'
    have hw0 : w 0 = 0 := by
      have h1 := hw (X1 i)
      rw [lsqObjective_A1, hX1val i] at h1
      nlinarith [mul_self_nonneg (w 0)]
    have hw'0 : w' 0 = 0 := by
      have h1 := hw' (X1 i)
      rw [lsqObjective_A1, hX1val i] at h1
      nlinarith [mul_self_nonneg (w' 0)]
    funext j
    have hj : j = 0 := Subsingleton.elim j 0
    rw [hj, hw0, hw'0]
  exact stacked_recon_equiv A1 G1 1 Y1 X1 X1 hX hZ huniq

end MR
